import Mathlib

/-
Verification of the concurrent URL-processing engine of CopperGroup/kraken.

The engine lives in two near-duplicate implementations:
  * the "enhanced" engine `processUrlsConcurrentlyInTabs` in
    src/lib/concurrency.core.ts (logs, statistics, callbacks, retries,
    cancellation), and
  * the "basic" engine `processUrlsConcurrentlyInTabs` in src/lib/utils.ts
    (no logs/stats, no isRetryable classifier).

The shallow embedding below translates both engines.  JavaScript runs the
engine on a single-threaded event loop; the per-item bookkeeping that follows
an item's retry loop executes atomically between awaits, so the final
accumulated lists and counters of a run are the fold of the per-item
completion handler over the processed items.  The engine's interleaving
freedom is captured by
  * an abort-observation oracle (`AbortObs`) per work item, describing at
    which polling point (if any) the shared AbortSignal is first observed
    aborted by that item, with `notClaimed` for items the scheduler skipped
    after observing the abort, and
  * a task oracle `task : String → Nat → Except Err (List T)` giving the
    outcome of each attempt (`TaskFunction` must throw to signal a retry).
Wall-clock fields (startTime/endTime/durationMs) and the log history are not
modelled; no claim concerns them.  The temporal bounded-concurrency property
is modelled separately by small-step transition systems for the two dispatch
modes.
-/

namespace Kraken

/-- Concurrency mode (`'portions' | 'threads'`, default `'threads'`). -/
inductive Mode where
  | portions
  | threads
deriving DecidableEq

/-- A JavaScript `Error` as far as the engine inspects it: its `name`
(checked by the default `isRetryable`) and its `message` (checked by the
completion handler's `lastError.message !== 'Operation aborted'` guard). -/
structure Err where
  name : String
  message : String
deriving DecidableEq

/-- `new Error(msg)` — the `name` of a plain `Error` is `"Error"`. -/
def mkErr (msg : String) : Err := ⟨"Error", msg⟩

/-- `new Error('Operation aborted')`, set when the abort signal is observed
at the top of the retry loop. -/
def opAbortedErr : Err := mkErr "Operation aborted"

/-- `new Error('Operation aborted during retry delay')`, the rejection of the
cancellable sleep between retries. -/
def opAbortedDelayErr : Err := mkErr "Operation aborted during retry delay"

/-- Default retryable-error policy of the enhanced engine:
`(error) => error.name === 'TimeoutError'`. -/
def defaultIsRetryable (e : Err) : Bool := e.name == "TimeoutError"

/-- `retryDelayMs`: either a constant number of milliseconds or a function of
the attempt number. -/
inductive RetryDelayCfg where
  | const (ms : Int)
  | fn (f : Nat → Int)

/-- `typeof retryDelayMs === 'function' ? retryDelayMs(attempts) :
retryDelayMs * attempts` — note the constant case is multiplied by the
attempt number (linear backoff), it is not used as-is. -/
def delayOf : RetryDelayCfg → Nat → Int
  | .const ms, attempts => ms * (attempts : Int)
  | .fn f, attempts => f attempts

/-- Where (if anywhere) one work item first observes the shared abort signal.
The retry loop polls the signal at the top of each iteration and during the
inter-retry sleep; the scheduler also polls it before claiming an item for a
worker (threads mode) or before starting a chunk (portions mode).
`never` = the signal never fires while this item is observed;
`notClaimed` = the scheduler observed the abort before dispatching the item,
so `executeTaskWithRetries` is never called for it;
`atLoopTop k` = the loop-top check with `attempts = k` sees the abort;
`atDelay k` = the abort fires during the sleep of the iteration that started
with `attempts = k` (only possible when that sleep actually happens). -/
inductive AbortObs where
  | never
  | notClaimed
  | atLoopTop (k : Nat)
  | atDelay (k : Nat)
deriving DecidableEq

/-- The state of `executeTaskWithRetries`'s local variables when its
`while` loop exits, plus instrumentation counting the task invocations, the
`totalRetriesMade++` executions, and the `(attemptNumber, delay)` pairs
computed for the scheduled retries. -/
structure LoopRes (T : Type) where
  taskResult : Option (List T)
  lastError : Option Err
  attempts : Nat
  invocations : Nat
  retries : Nat
  delays : List (Nat × Int)
deriving DecidableEq

/-- The `while (attempts <= maxRetries)` retry loop of the enhanced engine
(src/lib/concurrency.core.ts, `executeTaskWithRetries`).  `fuel` is the
value of `maxRetries + 1 - attempts`: the loop guard `attempts <= maxRetries`
holds exactly when `fuel > 0`, and the `fuel = 0` case is the loop exiting
through its guard with the current `taskResult`/`lastError`.  The loop body:
check the abort signal; invoke the task; on success break; on error increment
`attempts` and either schedule a retry (retryable error with attempts left:
count it, compute the delay, sleep — a sleep interrupted by the abort signal
breaks with the delay-abort error) or break with the error. -/
def retryGo (mR : Nat) (isR : Err → Bool) (rd : RetryDelayCfg)
    (task : Nat → Except Err (List T)) (ab : AbortObs) :
    Nat → Nat → Option (List T) → Option Err → LoopRes T
  | 0, attempts, taskResult, lastError => ⟨taskResult, lastError, attempts, 0, 0, []⟩
  | fuel + 1, attempts, taskResult, lastError =>
    if ab = AbortObs.atLoopTop attempts then
      ⟨taskResult, some opAbortedErr, attempts, 0, 0, []⟩
    else
      match task attempts with
      | .ok res => ⟨some res, none, attempts, 1, 0, []⟩
      | .error e =>
        if isR e ∧ attempts + 1 ≤ mR then
          let d := delayOf rd (attempts + 1)
          if 0 < d ∧ ab = AbortObs.atDelay attempts then
            ⟨taskResult, some opAbortedDelayErr, attempts + 1, 1, 1, [(attempts + 1, d)]⟩
          else
            let r := retryGo mR isR rd task ab fuel (attempts + 1) taskResult (some e)
            ⟨r.taskResult, r.lastError, r.attempts, r.invocations + 1, r.retries + 1,
              (attempts + 1, d) :: r.delays⟩
        else
          ⟨taskResult, some e, attempts + 1, 1, 0, []⟩

/-- One full execution of the enhanced engine's retry loop for one work item:
`attempts` starts at `0`, `taskResult`/`lastError` start `null`, and the loop
guard allows `maxRetries + 1` iterations. -/
def executeRetryLoop (mR : Nat) (isR : Err → Bool) (rd : RetryDelayCfg)
    (task : Nat → Except Err (List T)) (ab : AbortObs) : LoopRes T :=
  retryGo mR isR rd task ab (mR + 1) 0 none none

/-- `RunStats` of the enhanced engine, without the wall-clock fields
(`startTime`, `endTime`, `durationMs`), which no claim concerns.
`totalSuccess` is an `Int` because the engine computes it by subtraction
(`completedCount - failedTasks.length`). -/
structure RunStatsM where
  totalUrlsProvided : Nat
  totalUrlsAttempted : Nat
  totalSuccess : Int
  totalFailed : Nat
  totalRetriesMade : Nat
deriving DecidableEq

/-- `ProcessUrlsOptions` of the enhanced engine, with the source's defaults.
Callbacks are modelled as functions that either return (`.ok`) or throw
(`.error`); `none` means the option was not provided.  `signal` and the
scheduling-relevant part of cancellation are modelled by the per-item
`AbortObs` oracle and the `startAborted` flag of `processUrlsModel`;
`blockResources` and `logToConsole` only affect the opaque task and the
console and are not modelled. -/
structure Config (T : Type) where
  mode : Mode := Mode.threads
  maxRetries : Nat := 0
  retryDelay : RetryDelayCfg := RetryDelayCfg.const 500
  isRetryable : Err → Bool := defaultIsRetryable
  onProgress : Option (Nat → Nat → RunStatsM → Except Err Unit) := none
  onError : Option (Err → String → Nat → Except Err Unit) := none

/-- The mutable accumulation state of one enhanced-engine run:
`successfulResults`, `failedTasks`, `completedCount`, `totalRetriesMade`,
plus `callbackErrors` modelling the `console.error("Error in … handler:", e)`
records of caught callback exceptions. -/
structure RunState (T : Type) where
  successfulResults : List T
  failedTasks : List (String × Err)
  completedCount : Nat
  totalRetriesMade : Nat
  callbackErrors : List Err
deriving DecidableEq

/-- The accumulation state at the start of a run. -/
def initRunState : RunState T := ⟨[], [], 0, 0, []⟩

/-- `try { await callback(…) } catch (e) { console.error(…) }`: a throwing
callback is caught and its error recorded; it changes nothing else. -/
def recordCallback (st : RunState T) : Except Err Unit → RunState T
  | .ok _ => st
  | .error e => { st with callbackErrors := st.callbackErrors ++ [e] }

/-- The `statsNow` snapshot handed to `onProgress` mid-run (wall-clock fields
omitted).  Its `totalSuccess` is the local `successCount` variable — the
length of the flattened `successfulResults` list before this item's push,
plus one on a success — not the per-URL success counter of the final stats. -/
def statsSnapshot (nProvided nToProcess succCount failCount retries : Nat) : RunStatsM :=
  ⟨nProvided, nToProcess, (succCount : Int), failCount, retries⟩

/-- The completion handler at the end of `executeTaskWithRetries` (enhanced
engine): run the retry loop, increment `completedCount`, then
  * if `lastError` is set and its message is not `'Operation aborted'`,
    push the item onto `failedTasks` and invoke the guarded `onError` and
    `onProgress` callbacks;
  * if `lastError` is set with message `'Operation aborted'`, record nothing
    and skip both callbacks;
  * on success, append the produced items (when non-empty) to
    `successfulResults` and invoke the guarded `onProgress`.
`totalRetriesMade` is incremented inside the loop; its value at completion
time is the previous total plus this item's scheduled retries. -/
def processItem (cfg : Config T) (task : String → Nat → Except Err (List T))
    (ab : AbortObs) (nProvided nToProcess : Nat) (st : RunState T) (url : String) :
    RunState T :=
  let r := executeRetryLoop cfg.maxRetries cfg.isRetryable cfg.retryDelay (task url) ab
  let st1 : RunState T :=
    { st with completedCount := st.completedCount + 1,
              totalRetriesMade := st.totalRetriesMade + r.retries }
  let successCount := st1.successfulResults.length
  let failureCount := st1.failedTasks.length
  match r.lastError with
  | some e =>
    if e.message = "Operation aborted" then st1
    else
      let st2 : RunState T := { st1 with failedTasks := st1.failedTasks ++ [(url, e)] }
      let st3 := match cfg.onError with
        | none => st2
        | some f => recordCallback st2 (f e url r.attempts)
      match cfg.onProgress with
      | none => st3
      | some f => recordCallback st3 (f st3.completedCount nToProcess
          (statsSnapshot nProvided nToProcess successCount (failureCount + 1)
            st3.totalRetriesMade))
  | none =>
    let succInc : Nat := match r.taskResult with | some _ => 1 | none => 0
    let st2 : RunState T := match r.taskResult with
      | some res =>
        if 0 < res.length then
          { st1 with successfulResults := st1.successfulResults ++ res }
        else st1
      | none => st1
    match cfg.onProgress with
    | none => st2
    | some f => recordCallback st2 (f st2.completedCount nToProcess
        (statsSnapshot nProvided nToProcess (successCount + succInc) failureCount
          st2.totalRetriesMade))

/-- `[...new Set(urls)]`: deduplication keeping the first occurrence of each
value, modelled with the set of already-seen values as an accumulator. -/
def dedupFirstAux (seen : List String) : List String → List String
  | [] => []
  | a :: l => if a ∈ seen then dedupFirstAux seen l else a :: dedupFirstAux (a :: seen) l

/-- `const uniqueUrls = [...new Set(urls)]`. -/
def dedupFirst (l : List String) : List String := dedupFirstAux [] l

/-- The chunking of portions mode:
`for (let i = 0; i < n; i += maxConcurrency) chunk = urls.slice(i, i + maxConcurrency)`.
With `maxConcurrency = 0` the source loop never advances (the run never
terminates); the spec requires `maxConcurrency ≥ 1`, and the model returns
`[]` on that precondition-violating input. -/
def chunksOf (mc : Nat) (l : List α) : List (List α) :=
  if h : mc = 0 ∨ l.length = 0 then []
  else l.take mc :: chunksOf mc (l.drop mc)
termination_by l.length
decreasing_by
  push_neg at h
  simp only [List.length_drop]
  omega

/-- The `ProcessUrlsResult` of the enhanced engine (log history omitted). -/
structure RunResultM (T : Type) where
  successfulResults : List T
  failedTasks : List (String × Err)
  stats : RunStatsM
deriving DecidableEq

/-- One scheduler dispatch of one work item: the worker (threads mode) and
chunk loop (portions mode) poll the abort signal before dispatching an item;
an item whose observation is `notClaimed` is skipped entirely, any other item
goes through `executeTaskWithRetries`. -/
def stepFn (cfg : Config T) (task : String → Nat → Except Err (List T))
    (abSpec : String → AbortObs) (nProvided nToProcess : Nat) :
    RunState T → String → RunState T := fun st url =>
  if abSpec url = AbortObs.notClaimed then st
  else processItem cfg task (abSpec url) nProvided nToProcess st url

/-- `processUrlsConcurrentlyInTabs` of src/lib/concurrency.core.ts.
Threads mode deduplicates the URL list and launches
`min(maxConcurrency, totalUrlsToProcess)` workers over a shared queue — when
that minimum is `0` (possible only for `maxConcurrency = 0` with a non-empty
list) no worker runs and no item is processed; portions mode processes the
original list in consecutive chunks of `maxConcurrency`.  If the signal is
already aborted before scheduling, the run returns immediately with one
synthetic failure entry and zeroed counters except `totalUrlsProvided`.
The final stats compute `totalSuccess` as `completedCount - failedTasks.length`. -/
def processUrlsModel (cfg : Config T) (urls : List String) (maxConcurrency : Nat)
    (task : String → Nat → Except Err (List T)) (abSpec : String → AbortObs)
    (startAborted : Bool) : RunResultM T :=
  let uniqueUrls := dedupFirst urls
  let urlsToProcess := if cfg.mode = Mode.threads then uniqueUrls else urls
  let totalUrlsToProcess := urlsToProcess.length
  let initialUrlCount := urls.length
  if startAborted then
    { successfulResults := [],
      failedTasks := [("N/A", mkErr "Operation aborted before starting")],
      stats := ⟨initialUrlCount, 0, 0, 0, 0⟩ }
  else
    let finalSt :=
      match cfg.mode with
      | Mode.threads =>
        if Nat.min maxConcurrency totalUrlsToProcess = 0 then (initRunState : RunState T)
        else urlsToProcess.foldl (stepFn cfg task abSpec initialUrlCount totalUrlsToProcess)
          initRunState
      | Mode.portions =>
        (chunksOf maxConcurrency urlsToProcess).foldl
          (fun st (c : List String) =>
            c.foldl (stepFn cfg task abSpec initialUrlCount totalUrlsToProcess) st)
          initRunState
    { successfulResults := finalSt.successfulResults,
      failedTasks := finalSt.failedTasks,
      stats := ⟨initialUrlCount, totalUrlsToProcess,
                (finalSt.completedCount : Int) - (finalSt.failedTasks.length : Int),
                finalSt.failedTasks.length, finalSt.totalRetriesMade⟩ }

/-! The basic engine, `processUrlsConcurrentlyInTabs` of src/lib/utils.ts:
no log history, no statistics, no `isRetryable` classifier (every error is
retried while attempts remain), and callbacks without the stats/attempt
arguments. -/

/-- The local-variable state of the basic engine's retry loop at exit. -/
structure BLoopRes (T : Type) where
  taskResult : Option (List T)
  lastError : Option Err
  attempts : Nat
deriving DecidableEq

/-- The `while (attempts <= maxRetries)` loop of the basic engine's
`executeTaskWithRetries` (src/lib/utils.ts).  As in `retryGo`, `fuel` is
`maxRetries + 1 - attempts`.  After an error the basic engine always
increments `attempts`; with attempts remaining it computes the delay and
sleeps (a sleep interrupted by the abort breaks with the delay-abort error),
otherwise it just logs — in both cases control returns to the loop guard,
which on exhaustion exits with the last error. -/
def basicRetryGo (mR : Nat) (rd : RetryDelayCfg)
    (task : Nat → Except Err (List T)) (ab : AbortObs) :
    Nat → Nat → Option (List T) → Option Err → BLoopRes T
  | 0, attempts, taskResult, lastError => ⟨taskResult, lastError, attempts⟩
  | fuel + 1, attempts, taskResult, lastError =>
    if ab = AbortObs.atLoopTop attempts then
      ⟨taskResult, some opAbortedErr, attempts⟩
    else
      match task attempts with
      | .ok res => ⟨some res, none, attempts⟩
      | .error e =>
        if attempts + 1 ≤ mR then
          let d := delayOf rd (attempts + 1)
          if 0 < d ∧ ab = AbortObs.atDelay attempts then
            ⟨taskResult, some opAbortedDelayErr, attempts + 1⟩
          else
            basicRetryGo mR rd task ab fuel (attempts + 1) taskResult (some e)
        else
          basicRetryGo mR rd task ab fuel (attempts + 1) taskResult (some e)

/-- One full execution of the basic engine's retry loop for one work item. -/
def basicExecuteRetryLoop (mR : Nat) (rd : RetryDelayCfg)
    (task : Nat → Except Err (List T)) (ab : AbortObs) : BLoopRes T :=
  basicRetryGo mR rd task ab (mR + 1) 0 none none

/-- `ProcessUrlsOptions` of the basic engine, with its defaults. -/
structure BConfig where
  mode : Mode := Mode.threads
  maxRetries : Nat := 0
  retryDelay : RetryDelayCfg := RetryDelayCfg.const 500
  onProgress : Option (Nat → Nat → Except Err Unit) := none
  onError : Option (Err → String → Except Err Unit) := none

/-- The mutable accumulation state of one basic-engine run. -/
structure BRunState (T : Type) where
  successfulResults : List T
  failedTasks : List (String × Err)
  completedCount : Nat
  callbackErrors : List Err
deriving DecidableEq

/-- The accumulation state at the start of a basic-engine run. -/
def bInitRunState : BRunState T := ⟨[], [], 0, []⟩

/-- The basic engine's callback guard:
`try { await callback(…) } catch (e) { console.error(…) }`. -/
def bRecordCallback (st : BRunState T) : Except Err Unit → BRunState T
  | .ok _ => st
  | .error e => { st with callbackErrors := st.callbackErrors ++ [e] }

/-- The completion handler of the basic engine's `executeTaskWithRetries`:
increment `completedCount`; push onto `failedTasks` unless the final error's
message is `'Operation aborted'` (invoking the guarded `onError`); push the
produced items when non-empty; invoke the guarded `onProgress` unless the
final error was the loop-top abort. -/
def basicProcessItem (cfg : BConfig) (task : String → Nat → Except Err (List T))
    (ab : AbortObs) (nToProcess : Nat) (st : BRunState T) (url : String) : BRunState T :=
  let r := basicExecuteRetryLoop cfg.maxRetries cfg.retryDelay (task url) ab
  let st1 : BRunState T := { st with completedCount := st.completedCount + 1 }
  match r.lastError with
  | some e =>
    if e.message = "Operation aborted" then st1
    else
      let st2 : BRunState T := { st1 with failedTasks := st1.failedTasks ++ [(url, e)] }
      let st3 := match cfg.onError with
        | none => st2
        | some f => bRecordCallback st2 (f e url)
      match cfg.onProgress with
      | none => st3
      | some f => bRecordCallback st3 (f st3.completedCount nToProcess)
  | none =>
    let st2 : BRunState T := match r.taskResult with
      | some res =>
        if 0 < res.length then
          { st1 with successfulResults := st1.successfulResults ++ res }
        else st1
      | none => st1
    match cfg.onProgress with
    | none => st2
    | some f => bRecordCallback st2 (f st2.completedCount nToProcess)

/-- The `ProcessUrlsResult` of the basic engine. -/
structure BRunResultM (T : Type) where
  successfulResults : List T
  failedTasks : List (String × Err)
deriving DecidableEq

/-- One scheduler dispatch of one work item in the basic engine. -/
def bStepFn (cfg : BConfig) (task : String → Nat → Except Err (List T))
    (abSpec : String → AbortObs) (nToProcess : Nat) :
    BRunState T → String → BRunState T := fun st url =>
  if abSpec url = AbortObs.notClaimed then st
  else basicProcessItem cfg task (abSpec url) nToProcess st url

/-- `processUrlsConcurrentlyInTabs` of src/lib/utils.ts.  The scheduling is
identical to the enhanced engine's; only the result shape differs. -/
def basicProcessUrlsModel (cfg : BConfig) (urls : List String) (maxConcurrency : Nat)
    (task : String → Nat → Except Err (List T)) (abSpec : String → AbortObs)
    (startAborted : Bool) : BRunResultM T :=
  let uniqueUrls := dedupFirst urls
  let urlsToProcess := if cfg.mode = Mode.threads then uniqueUrls else urls
  let totalUrlsToProcess := urlsToProcess.length
  if startAborted then
    { successfulResults := [],
      failedTasks := [("N/A", mkErr "Operation aborted before starting")] }
  else
    let finalSt :=
      match cfg.mode with
      | Mode.threads =>
        if Nat.min maxConcurrency totalUrlsToProcess = 0 then (bInitRunState : BRunState T)
        else urlsToProcess.foldl (bStepFn cfg task abSpec totalUrlsToProcess) bInitRunState
      | Mode.portions =>
        (chunksOf maxConcurrency urlsToProcess).foldl
          (fun st (c : List String) =>
            c.foldl (bStepFn cfg task abSpec totalUrlsToProcess) st)
          bInitRunState
    { successfulResults := finalSt.successfulResults,
      failedTasks := finalSt.failedTasks }

/-! Helper lemmas about deduplication, chunking and folding. -/

theorem dedupFirstAux_idem (l : List String) :
    ∀ seen, dedupFirstAux seen (dedupFirstAux seen l) = dedupFirstAux seen l := by
  induction l with
  | nil => intro seen; rfl
  | cons a l ih =>
    intro seen
    by_cases h : a ∈ seen
    · simp [dedupFirstAux, h, ih]
    · simp [dedupFirstAux, h, ih]

/-- Deduplication is idempotent: deduplicating an already-deduplicated list
changes nothing. -/
theorem dedupFirst_idem (l : List String) : dedupFirst (dedupFirst l) = dedupFirst l :=
  dedupFirstAux_idem l []

theorem mem_dedupFirstAux (x : String) (l : List String) :
    ∀ seen, x ∈ dedupFirstAux seen l ↔ x ∈ l ∧ x ∉ seen := by
  induction l with
  | nil => intro seen; simp [dedupFirstAux]
  | cons a l ih =>
    intro seen
    by_cases h : a ∈ seen
    · simp only [dedupFirstAux, if_pos h, ih, List.mem_cons]
      constructor
      · rintro ⟨hl, hs⟩; exact ⟨Or.inr hl, hs⟩
      · rintro ⟨hx, hs⟩
        rcases hx with rfl | hl
        · exact absurd h hs
        · exact ⟨hl, hs⟩
    · simp only [dedupFirstAux, if_neg h, List.mem_cons, ih]
      by_cases hxa : x = a
      · subst hxa; simp [h]
      · simp [hxa]

/-- Deduplication preserves membership. -/
theorem mem_dedupFirst (x : String) (l : List String) :
    x ∈ dedupFirst l ↔ x ∈ l := by
  simp [dedupFirst, mem_dedupFirstAux]

theorem nodup_dedupFirstAux (l : List String) :
    ∀ seen, (dedupFirstAux seen l).Nodup := by
  induction l with
  | nil => intro seen; simp [dedupFirstAux]
  | cons a l ih =>
    intro seen
    by_cases h : a ∈ seen
    · simpa [dedupFirstAux, h] using ih seen
    · simp only [dedupFirstAux, if_neg h, List.nodup_cons]
      refine ⟨?_, ih (a :: seen)⟩
      rw [mem_dedupFirstAux]
      simp

/-- The deduplicated list has no duplicates: its length is the number of
distinct values in the input. -/
theorem nodup_dedupFirst (l : List String) : (dedupFirst l).Nodup :=
  nodup_dedupFirstAux l []

/-- Concatenating the portions-mode chunks recovers the processed list
(under the spec's precondition `maxConcurrency ≥ 1`). -/
theorem chunksOf_flatten (mc : Nat) (hmc : mc ≠ 0) (l : List α) :
    (chunksOf mc l).flatten = l := by
  induction l using chunksOf.induct mc with
  | case1 l h =>
    rcases h with h | h
    · exact absurd h hmc
    · rw [chunksOf, dif_pos (Or.inr h)]
      simpa using (List.length_eq_zero.mp h).symm
  | case2 l h ih =>
    rw [chunksOf, dif_neg h]
    simp [ih, List.take_append_drop]

/-- Every portions-mode chunk has at most `maxConcurrency` elements. -/
theorem chunksOf_length_le (mc : Nat) (l : List α) :
    ∀ c ∈ chunksOf mc l, c.length ≤ mc := by
  induction l using chunksOf.induct mc with
  | case1 l h => rw [chunksOf, dif_pos h]; simp
  | case2 l h ih =>
    rw [chunksOf, dif_neg h]
    intro c hc
    rcases List.mem_cons.mp hc with rfl | hc
    · simpa using Nat.min_le_left mc l.length
    · exact ih c hc

/-- Folding chunk-by-chunk is folding over the concatenation. -/
theorem foldl_chunks (f : β → α → β) (L : List (List α)) (init : β) :
    L.foldl (fun st c => c.foldl f st) init = L.flatten.foldl f init := by
  induction L generalizing init with
  | nil => rfl
  | cons c L ih => simp [List.foldl_append, ih]

/-! Helper lemmas about the retry loop. -/

/-- Each loop iteration makes at most one task invocation, so a loop entered
with `fuel` remaining iterations makes at most `fuel` invocations. -/
theorem retryGo_invocations_le (mR : Nat) (isR : Err → Bool) (rd : RetryDelayCfg)
    (task : Nat → Except Err (List T)) (ab : AbortObs) :
    ∀ fuel a tr le, (retryGo mR isR rd task ab fuel a tr le).invocations ≤ fuel := by
  intro fuel
  induction fuel with
  | zero => intro a tr le; simp [retryGo]
  | succ fuel ih =>
    intro a tr le
    rw [retryGo]
    split
    · simp
    · split
      · simp
      · split
        · dsimp only
          split
          · simp
          · simpa using Nat.succ_le_succ (ih (a + 1) tr (some _))
        · simp

/-- In a run where the abort signal never fires for the item, every counted
retry is followed by exactly one further invocation: the invocation count is
the retry count plus one. -/
theorem retryGo_never_invocations (mR : Nat) (isR : Err → Bool) (rd : RetryDelayCfg)
    (task : Nat → Except Err (List T)) :
    ∀ fuel a tr le, a ≤ mR → mR + 1 ≤ a + fuel →
      (retryGo mR isR rd task AbortObs.never fuel a tr le).invocations
        = (retryGo mR isR rd task AbortObs.never fuel a tr le).retries + 1 := by
  intro fuel
  induction fuel with
  | zero => intro a tr le h1 h2; omega
  | succ fuel ih =>
    intro a tr le h1 h2
    rw [retryGo]
    split
    · simp_all
    · split
      · simp
      · next e heq =>
        split
        · next hg =>
          dsimp only
          split
          · next hd => simp at hd
          · have := ih (a + 1) tr (some e) hg.2 (by omega)
            simpa using this
        · simp

/-- Every `(attemptNumber, delay)` pair recorded by the retry loop satisfies
`delay = delayOf retryDelayCfg attemptNumber`: the slept delay is the
source's `retryDelayMs`-derived value for that attempt number. -/
theorem retryGo_delays (mR : Nat) (isR : Err → Bool) (rd : RetryDelayCfg)
    (task : Nat → Except Err (List T)) (ab : AbortObs) :
    ∀ fuel a tr le p, p ∈ (retryGo mR isR rd task ab fuel a tr le).delays →
      p.2 = delayOf rd p.1 := by
  intro fuel
  induction fuel with
  | zero => intro a tr le p hp; simp [retryGo] at hp
  | succ fuel ih =>
    intro a tr le p hp
    rw [retryGo] at hp
    split at hp
    · simp at hp
    · split at hp
      · simp at hp
      · next e heq =>
        split at hp
        · dsimp only at hp
          split at hp
          · simp at hp
            subst hp
            rfl
          · simp at hp
            rcases hp with rfl | hp
            · rfl
            · exact ih (a + 1) tr (some e) p hp
        · simp at hp

/-- When the loop-top check with the current `attempts` value observes the
abort, the loop breaks at once: no invocation, no retry, and
`lastError = new Error('Operation aborted')`. -/
theorem retryGo_atLoopTop (mR : Nat) (isR : Err → Bool) (rd : RetryDelayCfg)
    (task : Nat → Except Err (List T)) (fuel a : Nat) (tr : Option (List T))
    (le' : Option Err) :
    retryGo mR isR rd task (AbortObs.atLoopTop a) (fuel + 1) a tr le'
      = ⟨tr, some opAbortedErr, a, 0, 0, []⟩ := by
  rw [retryGo]
  simp

/-- When an attempt fails with a retryable error, a retry is scheduled with a
positive delay, and the abort fires during that sleep, the loop breaks with
`lastError = new Error('Operation aborted during retry delay')`, after having
counted the retry. -/
theorem retryGo_atDelay (mR : Nat) (isR : Err → Bool) (rd : RetryDelayCfg)
    (task : Nat → Except Err (List T)) (fuel a : Nat) (tr : Option (List T))
    (le' : Option Err) (e : Err) (htask : task a = .error e) (hr : isR e = true)
    (ha : a + 1 ≤ mR) (hd : 0 < delayOf rd (a + 1)) :
    retryGo mR isR rd task (AbortObs.atDelay a) (fuel + 1) a tr le'
      = ⟨tr, some opAbortedDelayErr, a + 1, 1, 1, [(a + 1, delayOf rd (a + 1))]⟩ := by
  rw [retryGo]
  simp [htask, hr, ha, hd]

/-! Per-item contributions to the run's accumulated state, and the master
fold lemma expressing a run's final accumulation state in terms of them. -/

/-- The retry-loop execution of one work item in a run. -/
def itemLoop (cfg : Config T) (task : String → Nat → Except Err (List T))
    (abSpec : String → AbortObs) (url : String) : LoopRes T :=
  executeRetryLoop cfg.maxRetries cfg.isRetryable cfg.retryDelay (task url) (abSpec url)

/-- How much one work item adds to `completedCount`: one unless the
scheduler never claimed it. -/
def itemCompleted (abSpec : String → AbortObs) (url : String) : Nat :=
  if abSpec url = AbortObs.notClaimed then 0 else 1

/-- What one work item appends to `failedTasks`: its final error, unless it
was never claimed, succeeded, or its final error is the loop-top abort
(message `'Operation aborted'`). -/
def itemFails (cfg : Config T) (task : String → Nat → Except Err (List T))
    (abSpec : String → AbortObs) (url : String) : List (String × Err) :=
  if abSpec url = AbortObs.notClaimed then []
  else
    match (itemLoop cfg task abSpec url).lastError with
    | some e => if e.message = "Operation aborted" then [] else [(url, e)]
    | none => []

/-- What one work item appends to `successfulResults`: its produced items on
success, nothing otherwise. -/
def itemSucc (cfg : Config T) (task : String → Nat → Except Err (List T))
    (abSpec : String → AbortObs) (url : String) : List T :=
  if abSpec url = AbortObs.notClaimed then []
  else
    match (itemLoop cfg task abSpec url).lastError, (itemLoop cfg task abSpec url).taskResult with
    | none, some res => res
    | _, _ => []

/-- How much one work item adds to `totalRetriesMade`. -/
def itemRetries (cfg : Config T) (task : String → Nat → Except Err (List T))
    (abSpec : String → AbortObs) (url : String) : Nat :=
  if abSpec url = AbortObs.notClaimed then 0 else (itemLoop cfg task abSpec url).retries

theorem recordCallback_core (st : RunState T) (r : Except Err Unit) :
    (recordCallback st r).successfulResults = st.successfulResults ∧
    (recordCallback st r).failedTasks = st.failedTasks ∧
    (recordCallback st r).completedCount = st.completedCount ∧
    (recordCallback st r).totalRetriesMade = st.totalRetriesMade := by
  cases r <;> simp [recordCallback]

/-- One scheduler step changes the four accumulation fields by exactly the
item's contributions (callback exceptions only ever touch the console). -/
theorem stepFn_spec (cfg : Config T) (task : String → Nat → Except Err (List T))
    (abSpec : String → AbortObs) (nP nT : Nat) (st : RunState T) (url : String) :
    (stepFn cfg task abSpec nP nT st url).successfulResults
      = st.successfulResults ++ itemSucc cfg task abSpec url ∧
    (stepFn cfg task abSpec nP nT st url).failedTasks
      = st.failedTasks ++ itemFails cfg task abSpec url ∧
    (stepFn cfg task abSpec nP nT st url).completedCount
      = st.completedCount + itemCompleted abSpec url ∧
    (stepFn cfg task abSpec nP nT st url).totalRetriesMade
      = st.totalRetriesMade + itemRetries cfg task abSpec url := by
  by_cases hnc : abSpec url = AbortObs.notClaimed
  · simp [stepFn, hnc, itemSucc, itemFails, itemCompleted, itemRetries]
  · simp only [stepFn, if_neg hnc, itemSucc, itemFails, itemCompleted, itemRetries,
      processItem, itemLoop]
    rcases hle : (executeRetryLoop cfg.maxRetries cfg.isRetryable cfg.retryDelay
        (task url) (abSpec url)).lastError with _ | e
    · rcases htr : (executeRetryLoop cfg.maxRetries cfg.isRetryable cfg.retryDelay
          (task url) (abSpec url)).taskResult with _ | res
      · rcases hp : cfg.onProgress with _ | f
        · simp [hle, htr, hp, hnc]
        · simp [hle, htr, hp, hnc, recordCallback_core]
      · by_cases hres : 0 < res.length
        · rcases hp : cfg.onProgress with _ | f
          · simp [hle, htr, hp, hnc, hres]
          · simp [hle, htr, hp, hnc, hres, recordCallback_core]
        · have hres0 : res = [] := by
            cases res with
            | nil => rfl
            | cons x xs => simp at hres
          rcases hp : cfg.onProgress with _ | f
          · simp [hle, htr, hp, hnc, hres, hres0]
          · simp [hle, htr, hp, hnc, hres, hres0, recordCallback_core]
    · by_cases hmsg : e.message = "Operation aborted"
      · simp [hle, hmsg, hnc]
      · rcases he : cfg.onError with _ | g <;> rcases hp : cfg.onProgress with _ | f <;>
          simp [hle, hmsg, hnc, he, hp, recordCallback_core]

/-- Master fold lemma: after processing a list of items, each accumulation
field equals its initial value extended by the concatenation/sum of the
per-item contributions. -/
theorem foldl_stepFn_spec (cfg : Config T) (task : String → Nat → Except Err (List T))
    (abSpec : String → AbortObs) (nP nT : Nat) (l : List String) (st : RunState T) :
    (l.foldl (stepFn cfg task abSpec nP nT) st).successfulResults
      = st.successfulResults ++ (l.map (itemSucc cfg task abSpec)).flatten ∧
    (l.foldl (stepFn cfg task abSpec nP nT) st).failedTasks
      = st.failedTasks ++ (l.map (itemFails cfg task abSpec)).flatten ∧
    (l.foldl (stepFn cfg task abSpec nP nT) st).completedCount
      = st.completedCount + (l.map (itemCompleted abSpec)).sum ∧
    (l.foldl (stepFn cfg task abSpec nP nT) st).totalRetriesMade
      = st.totalRetriesMade + (l.map (itemRetries cfg task abSpec)).sum := by
  induction l generalizing st with
  | nil => simp
  | cons a l ih =>
    obtain ⟨h1, h2, h3, h4⟩ := ih (stepFn cfg task abSpec nP nT st a)
    obtain ⟨g1, g2, g3, g4⟩ := stepFn_spec cfg task abSpec nP nT st a
    refine ⟨?_, ?_, ?_, ?_⟩
    · simp [List.foldl_cons, h1, g1]
    · simp [List.foldl_cons, h2, g2]
    · simp [List.foldl_cons, h3, g3]; omega
    · simp [List.foldl_cons, h4, g4]; omega

/-- The list the scheduler dispatches: the deduplicated URLs in threads mode,
the original list in portions mode. -/
def urlsToProcessOf (mode : Mode) (urls : List String) : List String :=
  if mode = Mode.threads then dedupFirst urls else urls

/-- The items that actually go through the completion handler: none when
threads mode launches zero workers, and the chunk concatenation in portions
mode. -/
def effList (mode : Mode) (urls : List String) (mc : Nat) : List String :=
  match mode with
  | Mode.threads =>
    if Nat.min mc (dedupFirst urls).length = 0 then [] else dedupFirst urls
  | Mode.portions => (chunksOf mc urls).flatten

/-- Under the spec's precondition `maxConcurrency ≥ 1`, every item of the
dispatch list goes through the completion handler. -/
theorem effList_eq (mode : Mode) (urls : List String) (mc : Nat) (hmc : mc ≠ 0) :
    effList mode urls mc = urlsToProcessOf mode urls := by
  cases mode with
  | threads =>
    simp only [effList, urlsToProcessOf, if_pos rfl]
    split
    · next h =>
      rcases Nat.min_eq_zero_iff.mp h with h | h
      · exact absurd h hmc
      · exact (List.length_eq_zero.mp h).symm
    · rfl
  | portions =>
    simp only [effList, urlsToProcessOf]
    rw [chunksOf_flatten mc hmc urls]
    rfl

/-- A non-pre-aborted run, field by field: the results are the concatenated
per-item contributions over the effectively processed list, and the final
stats are assembled from the fold's counters (`totalSuccess` by the
subtraction `completedCount - failedTasks.length`). -/
theorem processUrlsModel_fields (cfg : Config T) (urls : List String) (mc : Nat)
    (task : String → Nat → Except Err (List T)) (abSpec : String → AbortObs) :
    (processUrlsModel cfg urls mc task abSpec false).successfulResults
      = ((effList cfg.mode urls mc).map (itemSucc cfg task abSpec)).flatten ∧
    (processUrlsModel cfg urls mc task abSpec false).failedTasks
      = ((effList cfg.mode urls mc).map (itemFails cfg task abSpec)).flatten ∧
    (processUrlsModel cfg urls mc task abSpec false).stats
      = ⟨urls.length, (urlsToProcessOf cfg.mode urls).length,
         (((effList cfg.mode urls mc).map (itemCompleted abSpec)).sum : Int)
           - (((effList cfg.mode urls mc).map (itemFails cfg task abSpec)).flatten.length : Int),
         ((effList cfg.mode urls mc).map (itemFails cfg task abSpec)).flatten.length,
         ((effList cfg.mode urls mc).map (itemRetries cfg task abSpec)).sum⟩ := by
  cases hm : cfg.mode with
  | threads =>
    by_cases h0 : mc = 0 ∨ dedupFirst urls = []
    · simp [processUrlsModel, hm, urlsToProcessOf, effList, h0, initRunState]
    · obtain ⟨h1, h2, h3, h4⟩ :=
        foldl_stepFn_spec cfg task abSpec urls.length (dedupFirst urls).length
          (dedupFirst urls) initRunState
      simp only [initRunState, List.nil_append, Nat.zero_add] at h1 h2 h3 h4
      simp [processUrlsModel, hm, urlsToProcessOf, effList, h0, h1, h2, h3, h4,
        initRunState, List.length_flatten, Function.comp]
  | portions =>
    obtain ⟨h1, h2, h3, h4⟩ :=
      foldl_stepFn_spec cfg task abSpec urls.length urls.length
        (chunksOf mc urls).flatten initRunState
    simp only [initRunState, List.nil_append, Nat.zero_add] at h1 h2 h3 h4
    simp only [processUrlsModel, hm, urlsToProcessOf, effList, Bool.false_eq_true, if_false,
      reduceCtorEq, foldl_chunks]
    simp [h1, h2, h3, h4, initRunState, List.length_flatten, Function.comp]

/-! Claim theorems. -/

/-- C7: if the cancellation signal is already set before any scheduling
occurs, the run returns (it does not throw) a result with no successes,
exactly one synthetic `('N/A', 'Operation aborted before starting')` failure
entry, and all counters zero except `totalUrlsProvided`, which is the length
of the input list. -/
theorem c7_pre_start_abort (T : Type) (cfg : Config T) (urls : List String) (mc : Nat)
    (task : String → Nat → Except Err (List T)) (abSpec : String → AbortObs) :
    processUrlsModel cfg urls mc task abSpec true
      = { successfulResults := [],
          failedTasks := [("N/A", mkErr "Operation aborted before starting")],
          stats := ⟨urls.length, 0, 0, 0, 0⟩ } := by
  rfl

/-- C1: in a run without cancellation (no abort observation anywhere and no
pre-start abort) and with `maxConcurrency ≥ 1`, the final stats satisfy
`totalUrlsAttempted = totalSuccess + totalFailed`, in both dispatch modes. -/
theorem c1_completion_count (T : Type) (cfg : Config T) (urls : List String) (mc : Nat)
    (task : String → Nat → Except Err (List T)) :
    ((processUrlsModel cfg urls (mc + 1) task (fun _ => AbortObs.never) false).stats.totalUrlsAttempted : Int)
      = (processUrlsModel cfg urls (mc + 1) task (fun _ => AbortObs.never) false).stats.totalSuccess
        + ((processUrlsModel cfg urls (mc + 1) task (fun _ => AbortObs.never) false).stats.totalFailed : Int) := by
  obtain ⟨-, -, hstats⟩ := processUrlsModel_fields cfg urls (mc + 1) task (fun _ => AbortObs.never)
  rw [hstats, effList_eq cfg.mode urls (mc + 1) (Nat.succ_ne_zero mc)]
  have hfun : (itemCompleted (fun _ : String => AbortObs.never)) = fun _ => 1 := by
    funext u
    simp [itemCompleted]
  simp only [hfun]
  simp

/-- C4: in threads (streaming) mode a run over a list with duplicates returns
the same `successfulResults` as the run over the deduplicated list (here even
as equal lists, hence as equal sets), `stats.totalUrlsAttempted` is the
length of the deduplicated list, and that list is duplicate-free and has
exactly the members of the input — it counts the unique items only. -/
theorem c4_dedup_idempotence (T : Type) (mR : Nat) (rd : RetryDelayCfg) (isR : Err → Bool)
    (onP : Option (Nat → Nat → RunStatsM → Except Err Unit))
    (onE : Option (Err → String → Nat → Except Err Unit))
    (urls : List String) (mc : Nat) (task : String → Nat → Except Err (List T))
    (abSpec : String → AbortObs) :
    (processUrlsModel ⟨Mode.threads, mR, rd, isR, onP, onE⟩ urls mc task abSpec
        false).successfulResults
      = (processUrlsModel ⟨Mode.threads, mR, rd, isR, onP, onE⟩ (dedupFirst urls) mc task abSpec
          false).successfulResults
    ∧ (processUrlsModel ⟨Mode.threads, mR, rd, isR, onP, onE⟩ urls mc task abSpec
        false).stats.totalUrlsAttempted = (dedupFirst urls).length
    ∧ (dedupFirst urls).Nodup
    ∧ (∀ x, x ∈ dedupFirst urls ↔ x ∈ urls) := by
  obtain ⟨e1, -, e3⟩ :=
    processUrlsModel_fields (⟨Mode.threads, mR, rd, isR, onP, onE⟩ : Config T) urls mc task abSpec
  obtain ⟨f1, -, -⟩ :=
    processUrlsModel_fields (⟨Mode.threads, mR, rd, isR, onP, onE⟩ : Config T) (dedupFirst urls)
      mc task abSpec
  refine ⟨?_, ?_, nodup_dedupFirst urls, fun x => mem_dedupFirst x urls⟩
  · rw [e1, f1]
    have heff : effList (⟨Mode.threads, mR, rd, isR, onP, onE⟩ : Config T).mode (dedupFirst urls) mc
        = effList (⟨Mode.threads, mR, rd, isR, onP, onE⟩ : Config T).mode urls mc := by
      simp [effList, dedupFirst_idem]
    rw [heff]
  · rw [e3]
    simp [urlsToProcessOf]

/-- An identical configuration whose callbacks are not provided. -/
def dropCallbacks (cfg : Config T) : Config T :=
  { cfg with onProgress := none, onError := none }

theorem itemSucc_dropCallbacks (cfg : Config T) (task : String → Nat → Except Err (List T))
    (abSpec : String → AbortObs) :
    itemSucc (dropCallbacks cfg) task abSpec = itemSucc cfg task abSpec := rfl

theorem itemFails_dropCallbacks (cfg : Config T) (task : String → Nat → Except Err (List T))
    (abSpec : String → AbortObs) :
    itemFails (dropCallbacks cfg) task abSpec = itemFails cfg task abSpec := rfl

theorem itemRetries_dropCallbacks (cfg : Config T) (task : String → Nat → Except Err (List T))
    (abSpec : String → AbortObs) :
    itemRetries (dropCallbacks cfg) task abSpec = itemRetries cfg task abSpec := rfl

/-- C8: a run with arbitrary (possibly throwing) `onProgress`/`onError`
callbacks returns the same `successfulResults`, the same `failedTasks` and
the same stats as the identical run with no callbacks: a callback exception
is caught (recorded on the console by `recordCallback`) and never alters the
run's outcome.  Together with the totality of `processUrlsModel`, nothing a
callback does can propagate out of the run. -/
theorem c8_callback_isolation (T : Type) (cfg : Config T) (urls : List String) (mc : Nat)
    (task : String → Nat → Except Err (List T)) (abSpec : String → AbortObs)
    (startAborted : Bool) :
    (processUrlsModel cfg urls mc task abSpec startAborted).successfulResults
      = (processUrlsModel (dropCallbacks cfg) urls mc task abSpec startAborted).successfulResults
    ∧ (processUrlsModel cfg urls mc task abSpec startAborted).failedTasks
      = (processUrlsModel (dropCallbacks cfg) urls mc task abSpec startAborted).failedTasks
    ∧ (processUrlsModel cfg urls mc task abSpec startAborted).stats
      = (processUrlsModel (dropCallbacks cfg) urls mc task abSpec startAborted).stats := by
  cases startAborted with
  | true => exact ⟨rfl, rfl, rfl⟩
  | false =>
    obtain ⟨e1, e2, e3⟩ := processUrlsModel_fields cfg urls mc task abSpec
    obtain ⟨f1, f2, f3⟩ := processUrlsModel_fields (dropCallbacks cfg) urls mc task abSpec
    have hmode : (dropCallbacks cfg).mode = cfg.mode := rfl
    rw [hmode] at f1 f2 f3
    simp only [itemSucc_dropCallbacks, itemFails_dropCallbacks, itemRetries_dropCallbacks]
      at f1 f2 f3
    exact ⟨e1.trans f1.symm, e2.trans f2.symm, e3.trans f3.symm⟩

/-- Whether the item was dispatched and its retry loop ended in success. -/
def isSuccessItem (cfg : Config T) (task : String → Nat → Except Err (List T))
    (abSpec : String → AbortObs) (url : String) : Bool :=
  decide (abSpec url ≠ AbortObs.notClaimed)
    && decide ((itemLoop cfg task abSpec url).lastError = none)

/-- Whether the item was dispatched and its retry loop ended with the
loop-top-abort error (`message = 'Operation aborted'`): the completion
handler treats exactly these items as cancellation-exempt. -/
def isCancelledItem (cfg : Config T) (task : String → Nat → Except Err (List T))
    (abSpec : String → AbortObs) (url : String) : Bool :=
  decide (abSpec url ≠ AbortObs.notClaimed)
    && (match (itemLoop cfg task abSpec url).lastError with
        | some e => decide (e.message = "Operation aborted")
        | none => false)

theorem itemCompleted_split (cfg : Config T) (task : String → Nat → Except Err (List T))
    (abSpec : String → AbortObs) (url : String) :
    itemCompleted abSpec url
      = (if isSuccessItem cfg task abSpec url then 1 else 0)
        + (if isCancelledItem cfg task abSpec url then 1 else 0)
        + (itemFails cfg task abSpec url).length := by
  by_cases hnc : abSpec url = AbortObs.notClaimed
  · simp [itemCompleted, isSuccessItem, isCancelledItem, itemFails, hnc]
  · rcases hle : (itemLoop cfg task abSpec url).lastError with _ | e
    · simp [itemCompleted, isSuccessItem, isCancelledItem, itemFails, hnc, hle]
    · by_cases hmsg : e.message = "Operation aborted"
      · simp [itemCompleted, isSuccessItem, isCancelledItem, itemFails, hnc, hle, hmsg]
      · simp [itemCompleted, isSuccessItem, isCancelledItem, itemFails, hnc, hle, hmsg]

theorem sum_itemCompleted (cfg : Config T) (task : String → Nat → Except Err (List T))
    (abSpec : String → AbortObs) (l : List String) :
    (l.map (itemCompleted abSpec)).sum
      = l.countP (isSuccessItem cfg task abSpec) + l.countP (isCancelledItem cfg task abSpec)
        + ((l.map (itemFails cfg task abSpec)).flatten).length := by
  induction l with
  | nil => simp
  | cons a l ih =>
    simp only [List.map_cons, List.sum_cons, List.countP_cons, List.flatten_cons,
      List.length_append, itemCompleted_split cfg task abSpec a, ih]
    by_cases h1 : isSuccessItem cfg task abSpec a <;>
      by_cases h2 : isCancelledItem cfg task abSpec a <;> simp [h1, h2] <;> omega

theorem itemSucc_eq_nil_of_not_success (cfg : Config T)
    (task : String → Nat → Except Err (List T)) (abSpec : String → AbortObs) (url : String)
    (h : isSuccessItem cfg task abSpec url = false) :
    itemSucc cfg task abSpec url = [] := by
  by_cases hnc : abSpec url = AbortObs.notClaimed
  · simp [itemSucc, hnc]
  · rcases hle : (itemLoop cfg task abSpec url).lastError with _ | e
    · simp [isSuccessItem, hnc, hle] at h
    · simp [itemSucc, hnc, hle]

theorem flatten_itemSucc_filter (cfg : Config T)
    (task : String → Nat → Except Err (List T)) (abSpec : String → AbortObs)
    (l : List String) :
    (l.map (itemSucc cfg task abSpec)).flatten
      = ((l.filter (isSuccessItem cfg task abSpec)).map (itemSucc cfg task abSpec)).flatten := by
  induction l with
  | nil => rfl
  | cons a l ih =>
    by_cases h : isSuccessItem cfg task abSpec a
    · simp [List.filter_cons, h, ih]
    · simp [List.filter_cons, h, ih,
        itemSucc_eq_nil_of_not_success cfg task abSpec a (by simpa using h)]

/-- C9 (implicit): an item whose processing is terminated by a cancellation
observed at the top of the retry loop still increments `completedCount` and
is excluded from `failedTasks`; since the final stats compute `totalSuccess`
as `completedCount - failedTasks.length`, the run's `totalSuccess` counts
both the genuinely successful items and those cancelled items — even though
`successfulResults` only ever receives output from the successful items. -/
theorem c9_cancelled_counted_as_success (T : Type) (cfg : Config T) (urls : List String)
    (mc : Nat) (task : String → Nat → Except Err (List T)) (abSpec : String → AbortObs) :
    (processUrlsModel cfg urls (mc + 1) task abSpec false).stats.totalSuccess
      = (((urlsToProcessOf cfg.mode urls).countP (isSuccessItem cfg task abSpec)
          + (urlsToProcessOf cfg.mode urls).countP (isCancelledItem cfg task abSpec) : Nat) : Int)
    ∧ (processUrlsModel cfg urls (mc + 1) task abSpec false).successfulResults
      = (((urlsToProcessOf cfg.mode urls).filter (isSuccessItem cfg task abSpec)).map
          (itemSucc cfg task abSpec)).flatten := by
  obtain ⟨e1, -, e3⟩ := processUrlsModel_fields cfg urls (mc + 1) task abSpec
  rw [e1, e3, effList_eq cfg.mode urls (mc + 1) (Nat.succ_ne_zero mc)] at *
  constructor
  · show ((((urlsToProcessOf cfg.mode urls).map (itemCompleted abSpec)).sum : Nat) : Int)
        - (((urlsToProcessOf cfg.mode urls).map
            (itemFails cfg task abSpec)).flatten.length : Int) = _
    rw [sum_itemCompleted cfg task abSpec]
    push_cast
    ring
  · rw [flatten_itemSucc_filter]

/-! Concrete fixtures for counterexamples and witnesses. -/

/-- A timeout-class error, retryable under the default policy. -/
def cTimeoutErr : Err := ⟨"TimeoutError", "Navigation timeout"⟩

/-- A task that times out on every attempt of every URL. -/
def cTaskTimeout : String → Nat → Except Err (List Nat) := fun _ _ => .error cTimeoutErr

/-- An abort firing during the retry sleep that follows the first attempt. -/
def cAbDelay : String → AbortObs := fun _ => AbortObs.atDelay 0

/-- Threads mode, one retry, constant 500 ms retry delay, default retryable
policy, no callbacks. -/
def cCfg : Config Nat :=
  ⟨Mode.threads, 1, RetryDelayCfg.const 500, defaultIsRetryable, none, none⟩

/-- C3 counterexample: in the run over `["a"]` where the task times out once
and the cancellation fires during the retry delay, the item was invoked once
(`attempts = 1`, so `Σ max(0, attempts − 1) = 0`), yet
`stats.totalRetriesMade = 1` — the retry was counted before the sleep was
aborted, so the claimed equation fails on runs with cancellation. -/
theorem c3_counterexample :
    (processUrlsModel cCfg ["a"] 1 cTaskTimeout cAbDelay false).stats.totalRetriesMade = 1
    ∧ ((dedupFirst ["a"]).map
        (fun u => (itemLoop cCfg cTaskTimeout cAbDelay u).invocations - 1)).sum = 0
    ∧ (itemLoop cCfg cTaskTimeout cAbDelay "a").invocations = 1 := by
  decide

/-- C3 amended: (a) for every work item and every abort behaviour, the task
is invoked at most `maxRetries + 1` times; (b) in runs without cancellation
(and `maxConcurrency ≥ 1`), `stats.totalRetriesMade` equals the sum over the
dispatched items of `attempts − 1` (truncated subtraction, i.e.
`max(0, attempts − 1)`), where `attempts` is the item's number of task
invocations.  With a cancellation during a retry delay the counted retry has
no following invocation and the equation can fail (see the counterexample). -/
theorem c3_retry_accounting_amended (T : Type) (cfg : Config T) (urls : List String)
    (mc : Nat) (task : String → Nat → Except Err (List T)) :
    (∀ url ab,
      (executeRetryLoop cfg.maxRetries cfg.isRetryable cfg.retryDelay (task url)
        ab).invocations ≤ cfg.maxRetries + 1)
    ∧ (processUrlsModel cfg urls (mc + 1) task (fun _ => AbortObs.never) false).stats.totalRetriesMade
      = ((urlsToProcessOf cfg.mode urls).map
          (fun u => (itemLoop cfg task (fun _ => AbortObs.never) u).invocations - 1)).sum := by
  constructor
  · intro url ab
    exact retryGo_invocations_le cfg.maxRetries cfg.isRetryable cfg.retryDelay (task url) ab
      (cfg.maxRetries + 1) 0 none none
  · obtain ⟨-, -, e3⟩ := processUrlsModel_fields cfg urls (mc + 1) task (fun _ => AbortObs.never)
    rw [e3, effList_eq cfg.mode urls (mc + 1) (Nat.succ_ne_zero mc)]
    show ((urlsToProcessOf cfg.mode urls).map
        (itemRetries cfg task (fun _ => AbortObs.never))).sum = _
    apply congrArg List.sum
    apply List.map_congr_left
    intro u hu
    have h := retryGo_never_invocations cfg.maxRetries cfg.isRetryable cfg.retryDelay (task u)
      (cfg.maxRetries + 1) 0 none none (Nat.zero_le _) (by omega)
    simp only [itemRetries, itemLoop, executeRetryLoop]
    rw [if_neg (by simp)]
    omega

/-- C5 counterexample: the run over `["a"]` whose only item times out once
and is then cancelled during the retry delay adds that item to
`failedTasks` (with the `'Operation aborted during retry delay'` error), so
a delay-time cancellation is not excluded from `failedTasks`. -/
theorem c5_counterexample :
    (processUrlsModel cCfg ["a"] 1 cTaskTimeout cAbDelay false).failedTasks
      = [("a", opAbortedDelayErr)] := by
  decide

/-- C5 amended: a cancellation observed at the top of the retry loop (before
an attempt) terminates retrying with `lastError = 'Operation aborted'`, and
an item finishing with that error is not added to `failedTasks`; a
cancellation observed strictly during the inter-retry sleep terminates
retrying with `lastError = 'Operation aborted during retry delay'`, and an
item finishing with that error IS added to `failedTasks` — the completion
handler's guard compares the message against `'Operation aborted'` only. -/
theorem c5_cancellation_vs_failed_amended (T : Type) (cfg : Config T)
    (task : String → Nat → Except Err (List T)) (abSpec : String → AbortObs)
    (nP nT : Nat) (st : RunState T) (url : String)
    (hnc : abSpec url ≠ AbortObs.notClaimed) :
    (∀ fuel k tr le', retryGo cfg.maxRetries cfg.isRetryable cfg.retryDelay (task url)
        (AbortObs.atLoopTop k) (fuel + 1) k tr le' = ⟨tr, some opAbortedErr, k, 0, 0, []⟩)
    ∧ ((itemLoop cfg task abSpec url).lastError = some opAbortedErr →
        (stepFn cfg task abSpec nP nT st url).failedTasks = st.failedTasks)
    ∧ (∀ fuel k tr le' e, task url k = .error e → cfg.isRetryable e = true →
        k + 1 ≤ cfg.maxRetries → 0 < delayOf cfg.retryDelay (k + 1) →
        retryGo cfg.maxRetries cfg.isRetryable cfg.retryDelay (task url)
          (AbortObs.atDelay k) (fuel + 1) k tr le'
          = ⟨tr, some opAbortedDelayErr, k + 1, 1, 1, [(k + 1, delayOf cfg.retryDelay (k + 1))]⟩)
    ∧ ((itemLoop cfg task abSpec url).lastError = some opAbortedDelayErr →
        (stepFn cfg task abSpec nP nT st url).failedTasks
          = st.failedTasks ++ [(url, opAbortedDelayErr)]) := by
  refine ⟨fun fuel k tr le' =>
      retryGo_atLoopTop cfg.maxRetries cfg.isRetryable cfg.retryDelay (task url) fuel k tr le',
    ?_,
    fun fuel k tr le' e h1 h2 h3 h4 =>
      retryGo_atDelay cfg.maxRetries cfg.isRetryable cfg.retryDelay (task url) fuel k tr le'
        e h1 h2 h3 h4,
    ?_⟩
  · intro h
    obtain ⟨-, h2, -, -⟩ := stepFn_spec cfg task abSpec nP nT st url
    rw [h2]
    simp [itemFails, hnc, h, opAbortedErr, mkErr]
  · intro h
    obtain ⟨-, h2, -, -⟩ := stepFn_spec cfg task abSpec nP nT st url
    rw [h2]
    simp [itemFails, hnc, h, opAbortedDelayErr, mkErr]

/-- Witness for the amended C5 at a concrete input: the delay-cancelled item
`"a"` is pushed onto `failedTasks` with the delay-abort error. -/
theorem c5_cancellation_vs_failed_amended_witness :
    (stepFn cCfg cTaskTimeout cAbDelay 1 1 initRunState "a").failedTasks
      = [("a", opAbortedDelayErr)] := by
  have h := (c5_cancellation_vs_failed_amended Nat cCfg cTaskTimeout cAbDelay 1 1
    initRunState "a" (by decide)).2.2.2 (by decide)
  simpa [initRunState] using h

/-- C6 counterexample: with the constant configuration `retryDelayMs = 500`
and a task that keeps timing out (`maxRetries = 2`), the recorded retry
delays are `500 · attemptNumber`: the second retry sleeps `1000 ≠ 500` ms, so
a constant `retryDelayMs` is not used as-is. -/
theorem c6_counterexample :
    (executeRetryLoop 2 defaultIsRetryable (RetryDelayCfg.const 500) (cTaskTimeout "a")
        AbortObs.never).delays = [(1, 500), (2, 1000)]
    ∧ ((1000 : Int) ≠ 500) := by
  decide

/-- C6 amended: every retry delay computed by the loop for a retry with
attempt number `k` equals `retryDelayMs * k` when `retryDelayMs` is a
constant (linear backoff), and `retryDelayMs(k)` when it is a function. -/
theorem c6_retry_delay_amended (T : Type) (mR : Nat) (isR : Err → Bool)
    (rd : RetryDelayCfg) (task : Nat → Except Err (List T)) (ab : AbortObs)
    (fuel a : Nat) (tr : Option (List T)) (le' : Option Err) (p : Nat × Int)
    (hp : p ∈ (retryGo mR isR rd task ab fuel a tr le').delays) :
    p.2 = delayOf rd p.1
    ∧ (∀ c, rd = RetryDelayCfg.const c → p.2 = c * (p.1 : Int))
    ∧ (∀ f, rd = RetryDelayCfg.fn f → p.2 = f p.1) := by
  have h := retryGo_delays mR isR rd task ab fuel a tr le' p hp
  refine ⟨h, ?_, ?_⟩
  · rintro c rfl
    simpa [delayOf] using h
  · rintro f rfl
    simpa [delayOf] using h

/-- Witness for the amended C6 at a concrete input: the first recorded delay
of the always-timing-out run is `(1, 500)` and indeed `500 = 500 * 1`. -/
theorem c6_retry_delay_amended_witness :
    ((1, (500 : Int)) ∈ (executeRetryLoop 2 defaultIsRetryable (RetryDelayCfg.const 500)
        (cTaskTimeout "a") AbortObs.never).delays)
    ∧ (500 : Int) = 500 * ((1 : Nat) : Int) := by
  refine ⟨by decide, ?_⟩
  have h := (c6_retry_delay_amended Nat 2 defaultIsRetryable (RetryDelayCfg.const 500)
    (cTaskTimeout "a") AbortObs.never 3 0 none none (1, 500) (by decide)).2.1 500 rfl
  simpa using h

/-! Per-item contributions of the basic engine and its fold lemma, mirroring
the enhanced engine's. -/

/-- The basic engine's retry-loop execution of one work item in a run. -/
def bItemLoop (cfg : BConfig) (task : String → Nat → Except Err (List T))
    (abSpec : String → AbortObs) (url : String) : BLoopRes T :=
  basicExecuteRetryLoop cfg.maxRetries cfg.retryDelay (task url) (abSpec url)

/-- What one work item appends to the basic engine's `failedTasks`. -/
def bItemFails (cfg : BConfig) (task : String → Nat → Except Err (List T))
    (abSpec : String → AbortObs) (url : String) : List (String × Err) :=
  if abSpec url = AbortObs.notClaimed then []
  else
    match (bItemLoop cfg task abSpec url).lastError with
    | some e => if e.message = "Operation aborted" then [] else [(url, e)]
    | none => []

/-- What one work item appends to the basic engine's `successfulResults`. -/
def bItemSucc (cfg : BConfig) (task : String → Nat → Except Err (List T))
    (abSpec : String → AbortObs) (url : String) : List T :=
  if abSpec url = AbortObs.notClaimed then []
  else
    match (bItemLoop cfg task abSpec url).lastError,
        (bItemLoop cfg task abSpec url).taskResult with
    | none, some res => res
    | _, _ => []

theorem bRecordCallback_core (st : BRunState T) (r : Except Err Unit) :
    (bRecordCallback st r).successfulResults = st.successfulResults ∧
    (bRecordCallback st r).failedTasks = st.failedTasks := by
  cases r <;> simp [bRecordCallback]

theorem bStepFn_spec (cfg : BConfig) (task : String → Nat → Except Err (List T))
    (abSpec : String → AbortObs) (nT : Nat) (st : BRunState T) (url : String) :
    (bStepFn cfg task abSpec nT st url).successfulResults
      = st.successfulResults ++ bItemSucc cfg task abSpec url ∧
    (bStepFn cfg task abSpec nT st url).failedTasks
      = st.failedTasks ++ bItemFails cfg task abSpec url := by
  by_cases hnc : abSpec url = AbortObs.notClaimed
  · simp [bStepFn, hnc, bItemSucc, bItemFails]
  · simp only [bStepFn, if_neg hnc, bItemSucc, bItemFails, basicProcessItem, bItemLoop]
    rcases hle : (basicExecuteRetryLoop cfg.maxRetries cfg.retryDelay
        (task url) (abSpec url)).lastError with _ | e
    · rcases htr : (basicExecuteRetryLoop cfg.maxRetries cfg.retryDelay
          (task url) (abSpec url)).taskResult with _ | res
      · rcases hp : cfg.onProgress with _ | f
        · simp [hle, htr, hp, hnc]
        · simp [hle, htr, hp, hnc, bRecordCallback_core]
      · by_cases hres : 0 < res.length
        · rcases hp : cfg.onProgress with _ | f
          · simp [hle, htr, hp, hnc, hres]
          · simp [hle, htr, hp, hnc, hres, bRecordCallback_core]
        · have hres0 : res = [] := by
            cases res with
            | nil => rfl
            | cons x xs => simp at hres
          rcases hp : cfg.onProgress with _ | f
          · simp [hle, htr, hp, hnc, hres, hres0]
          · simp [hle, htr, hp, hnc, hres, hres0, bRecordCallback_core]
    · by_cases hmsg : e.message = "Operation aborted"
      · simp [hle, hmsg, hnc]
      · rcases he : cfg.onError with _ | g <;> rcases hp : cfg.onProgress with _ | f <;>
          simp [hle, hmsg, hnc, he, hp, bRecordCallback_core]

theorem foldl_bStepFn_spec (cfg : BConfig) (task : String → Nat → Except Err (List T))
    (abSpec : String → AbortObs) (nT : Nat) (l : List String) (st : BRunState T) :
    (l.foldl (bStepFn cfg task abSpec nT) st).successfulResults
      = st.successfulResults ++ (l.map (bItemSucc cfg task abSpec)).flatten ∧
    (l.foldl (bStepFn cfg task abSpec nT) st).failedTasks
      = st.failedTasks ++ (l.map (bItemFails cfg task abSpec)).flatten := by
  induction l generalizing st with
  | nil => simp
  | cons a l ih =>
    obtain ⟨h1, h2⟩ := ih (bStepFn cfg task abSpec nT st a)
    obtain ⟨g1, g2⟩ := bStepFn_spec cfg task abSpec nT st a
    constructor
    · simp [List.foldl_cons, h1, g1]
    · simp [List.foldl_cons, h2, g2]

/-- A non-pre-aborted basic-engine run, field by field. -/
theorem basicProcessUrlsModel_fields (cfg : BConfig) (urls : List String) (mc : Nat)
    (task : String → Nat → Except Err (List T)) (abSpec : String → AbortObs) :
    (basicProcessUrlsModel cfg urls mc task abSpec false).successfulResults
      = ((effList cfg.mode urls mc).map (bItemSucc cfg task abSpec)).flatten ∧
    (basicProcessUrlsModel cfg urls mc task abSpec false).failedTasks
      = ((effList cfg.mode urls mc).map (bItemFails cfg task abSpec)).flatten := by
  cases hm : cfg.mode with
  | threads =>
    by_cases h0 : mc = 0 ∨ dedupFirst urls = []
    · simp [basicProcessUrlsModel, hm, effList, h0, bInitRunState]
    · obtain ⟨h1, h2⟩ :=
        foldl_bStepFn_spec cfg task abSpec (dedupFirst urls).length (dedupFirst urls)
          bInitRunState
      simp only [bInitRunState, List.nil_append] at h1 h2
      simp [basicProcessUrlsModel, hm, effList, h0, h1, h2, bInitRunState]
  | portions =>
    obtain ⟨h1, h2⟩ :=
      foldl_bStepFn_spec cfg task abSpec urls.length (chunksOf mc urls).flatten bInitRunState
    simp only [bInitRunState, List.nil_append] at h1 h2
    simp only [basicProcessUrlsModel, hm, effList, Bool.false_eq_true, if_false,
      reduceCtorEq, foldl_chunks]
    simp [h1, h2, bInitRunState]

/-- When every task error is a `TimeoutError` (so the enhanced engine's
default `isRetryable` accepts every error), the two engines' retry loops
leave identical `taskResult`, `lastError` and `attempts` — the only
behavioural difference between them is the retryability check. -/
theorem retryGo_eq_basic (mR : Nat) (rd : RetryDelayCfg)
    (task : Nat → Except Err (List T)) (ab : AbortObs)
    (hT : ∀ k e, task k = .error e → e.name = "TimeoutError") :
    ∀ fuel a tr le', fuel + a = mR + 1 →
      (retryGo mR defaultIsRetryable rd task ab fuel a tr le').taskResult
        = (basicRetryGo mR rd task ab fuel a tr le').taskResult
      ∧ (retryGo mR defaultIsRetryable rd task ab fuel a tr le').lastError
        = (basicRetryGo mR rd task ab fuel a tr le').lastError
      ∧ (retryGo mR defaultIsRetryable rd task ab fuel a tr le').attempts
        = (basicRetryGo mR rd task ab fuel a tr le').attempts := by
  intro fuel
  induction fuel with
  | zero => intro a tr le' hfa; exact ⟨rfl, rfl, rfl⟩
  | succ fuel ih =>
    intro a tr le' hfa
    by_cases hab : ab = AbortObs.atLoopTop a
    · simp [retryGo, basicRetryGo, hab]
    · cases htask : task a with
      | ok res => simp [retryGo, basicRetryGo, hab, htask]
      | error e =>
        have hname : defaultIsRetryable e = true := by
          simp [defaultIsRetryable, hT a e htask]
        by_cases hle : a + 1 ≤ mR
        · by_cases habd : 0 < delayOf rd (a + 1) ∧ ab = AbortObs.atDelay a
          · simp [retryGo, basicRetryGo, hab, htask, hname, hle, habd]
          · have h := ih (a + 1) tr (some e) (by omega)
            simp only [retryGo, basicRetryGo, hab, htask, hname, hle, habd, if_neg,
              if_pos, and_true, true_and, if_true] at *
            simpa [hab, habd, hle] using h
        · have hf0 : fuel = 0 := by omega
          subst hf0
          simp [retryGo, basicRetryGo, hab, htask, hname, hle]

/-- Under the all-timeout hypothesis, each item's contributions to the two
engines' result lists coincide. -/
theorem itemContribs_eq_basic (T : Type) (mode : Mode) (mR : Nat) (rd : RetryDelayCfg)
    (onP : Option (Nat → Nat → RunStatsM → Except Err Unit))
    (onE : Option (Err → String → Nat → Except Err Unit))
    (bonP : Option (Nat → Nat → Except Err Unit))
    (bonE : Option (Err → String → Except Err Unit))
    (task : String → Nat → Except Err (List T)) (abSpec : String → AbortObs)
    (hT : ∀ u k e, task u k = .error e → e.name = "TimeoutError") (url : String) :
    itemSucc (⟨mode, mR, rd, defaultIsRetryable, onP, onE⟩ : Config T) task abSpec url
      = bItemSucc (⟨mode, mR, rd, bonP, bonE⟩ : BConfig) task abSpec url
    ∧ itemFails (⟨mode, mR, rd, defaultIsRetryable, onP, onE⟩ : Config T) task abSpec url
      = bItemFails (⟨mode, mR, rd, bonP, bonE⟩ : BConfig) task abSpec url := by
  obtain ⟨h1, h2, -⟩ := retryGo_eq_basic mR rd (task url) (abSpec url)
    (fun k e h => hT url k e h) (mR + 1) 0 none none (by omega)
  constructor
  · simp only [itemSucc, bItemSucc, itemLoop, bItemLoop, executeRetryLoop,
      basicExecuteRetryLoop]
    rw [h1, h2]
  · simp only [itemFails, bItemFails, itemLoop, bItemLoop, executeRetryLoop,
      basicExecuteRetryLoop]
    rw [h2]

/-- C10 (implicit refinement): when every error the task throws has name
`'TimeoutError'` — so the enhanced engine's default `isRetryable` accepts
every error, matching the basic engine's unconditional retrying — the basic
engine (src/lib/utils.ts) and the enhanced engine (src/lib/concurrency.core.ts),
run with the same URLs, concurrency, mode, retry budget, delay configuration
and cancellation behaviour, return equal `successfulResults` and equal
`failedTasks`. -/
theorem c10_basic_enhanced_agree (T : Type) (mode : Mode) (mR : Nat) (rd : RetryDelayCfg)
    (onP : Option (Nat → Nat → RunStatsM → Except Err Unit))
    (onE : Option (Err → String → Nat → Except Err Unit))
    (bonP : Option (Nat → Nat → Except Err Unit))
    (bonE : Option (Err → String → Except Err Unit))
    (urls : List String) (mc : Nat) (task : String → Nat → Except Err (List T))
    (abSpec : String → AbortObs) (startAborted : Bool)
    (hT : ∀ u k e, task u k = .error e → e.name = "TimeoutError") :
    (processUrlsModel (⟨mode, mR, rd, defaultIsRetryable, onP, onE⟩ : Config T) urls mc task
        abSpec startAborted).successfulResults
      = (basicProcessUrlsModel (⟨mode, mR, rd, bonP, bonE⟩ : BConfig) urls mc task
          abSpec startAborted).successfulResults
    ∧ (processUrlsModel (⟨mode, mR, rd, defaultIsRetryable, onP, onE⟩ : Config T) urls mc task
        abSpec startAborted).failedTasks
      = (basicProcessUrlsModel (⟨mode, mR, rd, bonP, bonE⟩ : BConfig) urls mc task
          abSpec startAborted).failedTasks := by
  cases startAborted with
  | true => exact ⟨rfl, rfl⟩
  | false =>
    obtain ⟨e1, e2, -⟩ :=
      processUrlsModel_fields (⟨mode, mR, rd, defaultIsRetryable, onP, onE⟩ : Config T)
        urls mc task abSpec
    obtain ⟨f1, f2⟩ :=
      basicProcessUrlsModel_fields (⟨mode, mR, rd, bonP, bonE⟩ : BConfig) urls mc task abSpec
    rw [e1, e2, f1, f2]
    constructor
    · apply congrArg List.flatten
      apply List.map_congr_left
      intro u hu
      exact (itemContribs_eq_basic T mode mR rd onP onE bonP bonE task abSpec hT u).1
    · apply congrArg List.flatten
      apply List.map_congr_left
      intro u hu
      exact (itemContribs_eq_basic T mode mR rd onP onE bonP bonE task abSpec hT u).2

/-- Witness for C10 at a concrete input: the always-timing-out two-URL run
with one retry yields the same results from both engines. -/
theorem c10_basic_enhanced_agree_witness :
    (processUrlsModel (⟨Mode.threads, 1, RetryDelayCfg.const 500, defaultIsRetryable,
        none, none⟩ : Config Nat) ["a", "b"] 2 cTaskTimeout (fun _ => AbortObs.never)
        false).successfulResults
      = (basicProcessUrlsModel (⟨Mode.threads, 1, RetryDelayCfg.const 500, none, none⟩ :
          BConfig) ["a", "b"] 2 cTaskTimeout (fun _ => AbortObs.never)
          false).successfulResults
    ∧ (processUrlsModel (⟨Mode.threads, 1, RetryDelayCfg.const 500, defaultIsRetryable,
        none, none⟩ : Config Nat) ["a", "b"] 2 cTaskTimeout (fun _ => AbortObs.never)
        false).failedTasks
      = (basicProcessUrlsModel (⟨Mode.threads, 1, RetryDelayCfg.const 500, none, none⟩ :
          BConfig) ["a", "b"] 2 cTaskTimeout (fun _ => AbortObs.never)
          false).failedTasks :=
  c10_basic_enhanced_agree Nat Mode.threads 1 (RetryDelayCfg.const 500) none none none none
    ["a", "b"] 2 cTaskTimeout (fun _ => AbortObs.never) false
    (fun u k e h => by
      simp only [cTaskTimeout] at h
      injection h with h'
      subst h'
      rfl)

/-! Small-step models of the two dispatch disciplines for the temporal
bounded-concurrency property.  A task invocation is "in flight" from
`await taskFunction(...)` until it settles; each worker awaits sequentially,
so it has at most one invocation in flight at any time. -/

/-- What one threads-mode worker is doing: about to poll the queue (`idle`),
awaiting a task invocation, sleeping between retries, or exited. -/
inductive WPhase where
  | idle
  | invoking (url : String) (attempt : Nat)
  | delaying (url : String) (attempt : Nat)
  | done
deriving DecidableEq

/-- The threads-mode scheduler state: the shared queue and the phases of the
launched workers. -/
structure TState where
  queue : List String
  workers : List WPhase
deriving DecidableEq

/-- Threads mode starts `min(maxConcurrency, totalUrlsToProcess)` workers
over the queue seeded with the deduplicated URLs. -/
def tInit (mc : Nat) (urls : List String) : TState :=
  { queue := dedupFirst urls,
    workers := List.replicate (Nat.min mc (dedupFirst urls).length) WPhase.idle }

/-- One event-loop step of a threads-mode run.  `claim` is a worker popping
the queue and starting the first attempt; `exit` is a worker leaving its
while loop (empty queue or abort observed); a settled invocation either
finishes the item (back to the loop top, `taskReturn`), or schedules a retry
sleep (`taskRetry`); a sleep either completes into the next attempt (`wake`)
or is aborted (`delayAborted`, back to the loop exit path). -/
inductive TStep : TState → TState → Prop
  | claim (s : TState) (i : Nat) (u : String) (q : List String) :
      s.workers[i]? = some WPhase.idle → s.queue = u :: q →
      TStep s { queue := q, workers := s.workers.set i (WPhase.invoking u 0) }
  | exit (s : TState) (i : Nat) :
      s.workers[i]? = some WPhase.idle →
      TStep s { s with workers := s.workers.set i WPhase.done }
  | taskReturn (s : TState) (i : Nat) (u : String) (a : Nat) :
      s.workers[i]? = some (WPhase.invoking u a) →
      TStep s { s with workers := s.workers.set i WPhase.idle }
  | taskRetry (s : TState) (i : Nat) (u : String) (a : Nat) :
      s.workers[i]? = some (WPhase.invoking u a) →
      TStep s { s with workers := s.workers.set i (WPhase.delaying u (a + 1)) }
  | wake (s : TState) (i : Nat) (u : String) (a : Nat) :
      s.workers[i]? = some (WPhase.delaying u a) →
      TStep s { s with workers := s.workers.set i (WPhase.invoking u a) }
  | delayAborted (s : TState) (i : Nat) (u : String) (a : Nat) :
      s.workers[i]? = some (WPhase.delaying u a) →
      TStep s { s with workers := s.workers.set i WPhase.idle }

/-- Whether a worker currently has a task invocation in flight. -/
def isInvoking : WPhase → Bool
  | .invoking _ _ => true
  | _ => false

/-- Number of task invocations in flight in a threads-mode state. -/
def tInFlight (s : TState) : Nat := s.workers.countP isInvoking

theorem tStep_workers_length {s s' : TState} (h : TStep s s') :
    s'.workers.length = s.workers.length := by
  cases h <;> simp [List.length_set]

theorem tReach_workers_length {s s' : TState}
    (h : Relation.ReflTransGen TStep s s') : s'.workers.length = s.workers.length := by
  induction h with
  | refl => rfl
  | tail _ hstep ih => rw [tStep_workers_length hstep, ih]

/-- What one member of the active portions-mode chunk is doing. -/
inductive MPhase where
  | invoking (attempt : Nat)
  | delaying (attempt : Nat)
  | finished
deriving DecidableEq

/-- The portions-mode scheduler state: the chunks not yet started and the
phases of the members of the chunk being awaited. -/
structure PState where
  chunks : List (List String)
  active : List MPhase
deriving DecidableEq

/-- Portions mode starts with the full chunk list and no chunk in flight. -/
def pInit (mc : Nat) (urls : List String) : PState :=
  { chunks := chunksOf mc urls, active := [] }

/-- One event-loop step of a portions-mode run: the next chunk is dispatched
only once every member of the previous chunk has settled (`Promise.all`);
`abortRun` is the pre-chunk abort check dropping the remaining chunks; the
member steps mirror the worker steps of threads mode. -/
inductive PStep : PState → PState → Prop
  | startChunk (s : PState) (c : List String) (rest : List (List String)) :
      s.chunks = c :: rest → (∀ m ∈ s.active, m = MPhase.finished) →
      PStep s { chunks := rest, active := c.map (fun _ => MPhase.invoking 0) }
  | abortRun (s : PState) :
      (∀ m ∈ s.active, m = MPhase.finished) →
      PStep s { s with chunks := [] }
  | mReturn (s : PState) (i : Nat) (a : Nat) :
      s.active[i]? = some (MPhase.invoking a) →
      PStep s { s with active := s.active.set i MPhase.finished }
  | mRetry (s : PState) (i : Nat) (a : Nat) :
      s.active[i]? = some (MPhase.invoking a) →
      PStep s { s with active := s.active.set i (MPhase.delaying (a + 1)) }
  | mWake (s : PState) (i : Nat) (a : Nat) :
      s.active[i]? = some (MPhase.delaying a) →
      PStep s { s with active := s.active.set i (MPhase.invoking a) }
  | mDelayAborted (s : PState) (i : Nat) (a : Nat) :
      s.active[i]? = some (MPhase.delaying a) →
      PStep s { s with active := s.active.set i MPhase.finished }

/-- Whether a chunk member currently has a task invocation in flight. -/
def mIsInvoking : MPhase → Bool
  | .invoking _ => true
  | _ => false

/-- Number of task invocations in flight in a portions-mode state. -/
def pInFlight (s : PState) : Nat := s.active.countP mIsInvoking

/-- The portions-mode invariant: pending chunks are no larger than
`maxConcurrency`, and so is the active member list. -/
def PInv (mc : Nat) (s : PState) : Prop :=
  (∀ c ∈ s.chunks, c.length ≤ mc) ∧ s.active.length ≤ mc

theorem pStep_inv {mc : Nat} {s s' : PState} (hinv : PInv mc s) (h : PStep s s') :
    PInv mc s' := by
  obtain ⟨h1, h2⟩ := hinv
  cases h with
  | startChunk c rest hc hfin =>
    refine ⟨fun d hd => h1 d (by rw [hc]; exact List.mem_cons_of_mem c hd), ?_⟩
    simpa using h1 c (by rw [hc]; exact List.mem_cons_self c rest)
  | abortRun hfin => exact ⟨by simp, h2⟩
  | mReturn i a hi => exact ⟨h1, by simpa [List.length_set] using h2⟩
  | mRetry i a hi => exact ⟨h1, by simpa [List.length_set] using h2⟩
  | mWake i a hi => exact ⟨h1, by simpa [List.length_set] using h2⟩
  | mDelayAborted i a hi => exact ⟨h1, by simpa [List.length_set] using h2⟩

theorem pReach_inv (mc : Nat) (urls : List String) {s : PState}
    (h : Relation.ReflTransGen PStep (pInit mc urls) s) : PInv mc s := by
  induction h with
  | refl => exact ⟨chunksOf_length_le mc urls, by simp [pInit]⟩
  | tail _ hstep ih => exact pStep_inv ih hstep

/-- C2: in every reachable state of either dispatch discipline, at most
`maxConcurrency` task invocations are in flight.  Threads mode launches
`min(maxConcurrency, n)` workers, each with at most one invocation in
flight; portions mode awaits one chunk at a time, of size at most
`maxConcurrency`. -/
theorem c2_bounded_concurrency (mc : Nat) (urls : List String) :
    (∀ s : TState, Relation.ReflTransGen TStep (tInit mc urls) s → tInFlight s ≤ mc)
    ∧ (∀ s : PState, Relation.ReflTransGen PStep (pInit mc urls) s → pInFlight s ≤ mc) := by
  constructor
  · intro s hreach
    have hlen : s.workers.length = Nat.min mc (dedupFirst urls).length := by
      simpa [tInit] using tReach_workers_length hreach
    calc tInFlight s ≤ s.workers.length := List.countP_le_length isInvoking
      _ ≤ mc := by rw [hlen]; exact Nat.min_le_left _ _
  · intro s hreach
    obtain ⟨-, h2⟩ := pReach_inv mc urls hreach
    calc pInFlight s ≤ s.active.length := List.countP_le_length mIsInvoking
      _ ≤ mc := h2

/-- Witness for C2: a concrete reachable state of each mode — the threads
state after one worker claims `"a"` (one invocation in flight), and the
portions initial state — both within the bound `maxConcurrency = 1`. -/
theorem c2_bounded_concurrency_witness :
    tInFlight ⟨["b"], [WPhase.invoking "a" 0]⟩ ≤ 1 ∧ pInFlight (pInit 1 ["a"]) ≤ 1 := by
  constructor
  · exact (c2_bounded_concurrency 1 ["a", "b"]).1 ⟨["b"], [WPhase.invoking "a" 0]⟩
      (Relation.ReflTransGen.single
        (TStep.claim (tInit 1 ["a", "b"]) 0 "a" ["b"] (by decide) (by decide)))
  · exact (c2_bounded_concurrency 1 ["a"]).2 _ Relation.ReflTransGen.refl

end Kraken
